import Mathlib

/-!
# Verification of the AI photo-and-video-maker generation client

Shallow embedding of the repository's core logic:

* `src/services/geminiService.ts` — `generateImage`, `editImage`, and the
  asynchronous `generateVideo` submit/poll/fetch workflow.  Remote calls are
  modelled by passing the sequence of operation-handle responses and the
  binary-fetch behaviour as explicit inputs; the JavaScript truthiness rules
  that the code relies on (`if (operation.error)`, `operation.error.message &&`,
  `if (downloadLink)`) are modelled faithfully.
* `src/App.tsx` (`VideoTab`, `EditTab`) — file-type validation in the
  `handleFileChange` handlers, and the object-URL ownership discipline of
  `VideoTab` (manual `URL.revokeObjectURL` calls plus the cleanup effect keyed
  on `[videoUrl, preview]`), under the standard React rule that an effect's
  cleanup runs with the previously committed values whenever a dependency
  changes and once more on unmount.
* the download-filename slug `prompt.trim().toLowerCase().replace(/\s+/g,'-')
  .slice(0,50) || default` used by `GenerateTab.handleDownload` and
  `VideoTab.handleDownload`.
-/

/-! ## JavaScript values carried in `operation.error`

`generateVideo` inspects `operation.error` with JavaScript typeof/truthiness
tests, so the error payload is modelled as a small JS value type: strings,
numbers, and objects (field lists).  `JSON.stringify` is modelled without
character escaping, which is irrelevant to the properties proved here.
-/

inductive JsVal where
  | str : String → JsVal
  | num : Int → JsVal
  | obj : List (String × JsVal) → JsVal

/-- JavaScript truthiness of a `JsVal` (`""` and `0` are falsy, every object is
truthy). -/
def JsVal.truthy : JsVal → Bool
  | .str s => !s.isEmpty
  | .num n => n != 0
  | .obj _ => true

/-- Field lookup on a JS object literal (first binding wins; the model assumes
distinct keys, as JS object literals produced by the API have). -/
def lookupField (k : String) : List (String × JsVal) → Option JsVal
  | [] => none
  | (k', v) :: rest => if k = k' then some v else lookupField k rest

mutual
/-- `JSON.stringify`, modelled without character escaping. -/
def jsonStringify : JsVal → String
  | .str s => "\x22" ++ s ++ "\x22"
  | .num n => toString n
  | .obj fs => "\x7b" ++ (jsonFields fs ++ "\x7d")

/-- The comma-separated `"key":value` entries of `JSON.stringify` on an
object. -/
def jsonFields : List (String × JsVal) → String
  | [] => ""
  | [(k, v)] => "\x22" ++ k ++ "\x22:" ++ jsonStringify v
  | (k, v) :: rest => "\x22" ++ k ++ "\x22:" ++ jsonStringify v ++ "," ++ jsonFields rest
end

/-! ## `generateImage` (geminiService.ts lines 10-31)

The remote call either faults (modelled as `Except.error` input) or yields a
response with an optional `generatedImages` array.  The code returns
`generatedImages[0].image.imageBytes` when the array is non-empty, otherwise
throws `"No image was generated."` — but that throw sits inside the `try`, so
the `catch` replaces it with the generic message, exactly as it replaces any
transport fault. -/

structure ImageObj where
  imageBytes : String

structure GeneratedImage where
  image : ImageObj

structure ImagesResponse where
  generatedImages : Option (List GeneratedImage)

/-- Message of the error thrown by `generateImage`'s catch block. -/
def genImageFailMsg : String := "Failed to generate image. Please check the console for details."

/-- `generateImage`, as a function of the remote outcome.  A transport/service
fault is the `Except.error` input case; it and the internal
`"No image was generated."` throw are both funnelled through the catch block,
which rethrows the generic message. -/
def generateImageRun (input : Except String ImagesResponse) : Except String String :=
  match input with
  | .error _ => .error genImageFailMsg
  | .ok resp =>
    match resp.generatedImages with
    | some (g :: _) => .ok g.image.imageBytes
    | some [] => .error genImageFailMsg
    | none => .error genImageFailMsg

/-! ## `editImage` (geminiService.ts lines 33-68)

The code checks `response.candidates && response.candidates[0].content.parts`
and returns the parts list unchanged.  An empty `candidates` array is truthy in
JS, so indexing it raises a TypeError that the catch turns into the generic
message, and a missing parts list falls through to the
`"No edited content was returned."` throw, likewise replaced by the catch. -/

structure EditInlineData where
  mimeType : String
  data : String
deriving DecidableEq

structure EditResultPart where
  text : Option String := none
  inlineData : Option EditInlineData := none
deriving DecidableEq

structure EditContent where
  parts : Option (List EditResultPart)

structure EditCandidate where
  content : EditContent

structure EditResponse where
  candidates : Option (List EditCandidate)

/-- Message of the error thrown by `editImage`'s catch block. -/
def editImageFailMsg : String := "Failed to edit image. Please check the console for details."

/-- `editImage`, as a function of the remote outcome. -/
def editImageRun (input : Except String EditResponse) : Except String (List EditResultPart) :=
  match input with
  | .error _ => .error editImageFailMsg
  | .ok resp =>
    match resp.candidates with
    | some (c :: _) =>
      match c.content.parts with
      | some ps => .ok ps
      | none => .error editImageFailMsg
    | some [] => .error editImageFailMsg
    | none => .error editImageFailMsg

/-- `C3` counterexample inputs: a response whose only image has empty bytes,
a zero-image response, and a transport fault. -/
def c3OneEmptyImage : ImagesResponse := ⟨some [⟨⟨""⟩⟩]⟩

/-- `C3` zero-image response. -/
def c3ZeroImages : ImagesResponse := ⟨some []⟩

/-- C3 counterexample: `generateImage` returns the empty string as a success
value when the single generated image has empty bytes, and the zero-image
failure surfaces the very same generic message as a transport fault — so the
success value can be empty and the `NoResultError` is not distinct from the
`UpstreamError`. -/
theorem generateImage_claim_cex :
    generateImageRun (.ok c3OneEmptyImage) = .ok "" ∧
    generateImageRun (.ok c3ZeroImages) = .error genImageFailMsg ∧
    generateImageRun (.error "network down") = .error genImageFailMsg := by
  refine ⟨rfl, rfl, rfl⟩

/-- C3 (amended): for every remote outcome, `generateImage` either succeeds
with exactly the first generated image's bytes (which may be empty) or fails
with the single generic message `"Failed to generate image. Please check the
console for details."`; in particular it fails whenever the response carries
no image, and it never succeeds in that case. -/
theorem generateImage_result_dichotomy (input : Except String ImagesResponse) :
    generateImageRun input = .error genImageFailMsg ∨
      ∃ g gs, input = .ok ⟨some (g :: gs)⟩ ∧ generateImageRun input = .ok g.image.imageBytes := by
  match input with
  | .error e => exact Or.inl rfl
  | .ok ⟨none⟩ => exact Or.inl rfl
  | .ok ⟨some []⟩ => exact Or.inl rfl
  | .ok ⟨some (g :: gs)⟩ => exact Or.inr ⟨g, gs, rfl, rfl⟩

/-- C4: for every well-formed edit response — a `candidates` list whose first
candidate has a `content.parts` list `ps` — `editImage` returns exactly `ps`:
the same list, hence the same part count, same order, no filtering, and each
part unchanged. -/
theorem editImage_preserves_parts (resp : EditResponse) (c : EditCandidate)
    (cs : List EditCandidate) (ps : List EditResultPart)
    (hc : resp.candidates = some (c :: cs)) (hp : c.content.parts = some ps) :
    editImageRun (.ok resp) = .ok ps := by
  simp [editImageRun, hc, hp]

/-- Witness for C4 at a concrete two-part response: a text part followed by an
inline-image part comes back exactly as received. -/
theorem editImage_preserves_parts_witness :
    editImageRun (.ok ⟨some [⟨⟨some [⟨some "hello", none⟩, ⟨none, some ⟨"image/png", "QUJD"⟩⟩]⟩⟩]⟩) =
      .ok [⟨some "hello", none⟩, ⟨none, some ⟨"image/png", "QUJD"⟩⟩] :=
  editImage_preserves_parts _ _ [] _ rfl rfl

/-! ## `generateVideo` (geminiService.ts lines 79-143)

The asynchronous workflow.  The submit call and each poll call return an
*operation handle*; the run is modelled as a function of the non-empty
sequence of handle responses (submit response first, then the successive poll
responses) together with the behaviour of the authenticated binary `fetch`.
The model records the observable protocol actions — each 10-second suspension,
each poll call with the handle it is passed, and the binary fetch with its
URL — as an event trace.  `URL.createObjectURL(blob)` is modelled by the
`BlobURL` constructor applied to the fetched bytes.  The outer catch rethrows
every `Error` unchanged, so it is the identity on the outcomes modelled here.
A run that exhausts the given responses while `done` is still false (the
unbounded polling loop) is `none`. -/

structure VideoRef where
  uri : Option String

structure GeneratedVideo where
  video : Option VideoRef

structure VideoResponse where
  generatedVideos : Option (List GeneratedVideo)

/-- An operation handle, as returned by the submit call and each poll call. -/
structure Operation where
  done : Bool
  error : Option JsVal
  response : Option VideoResponse

/-- The optional chain `operation.response?.generatedVideos?.[0]?.video?.uri`. -/
def opDownloadLink (op : Operation) : Option String :=
  (((op.response.bind (·.generatedVideos)).bind List.head?).bind (·.video)).bind (·.uri)

/-- The error-message extraction of geminiService.ts lines 109-118: use
`operation.error.message` when it is a truthy string, else the error itself
when it is a string, else `JSON.stringify(operation.error)`. -/
def extractVideoErrorMessage (e : JsVal) : String :=
  match e with
  | .obj fs =>
    match lookupField "message" fs with
    | some (.str m) => if m.isEmpty then jsonStringify (.obj fs) else m
    | _ => jsonStringify (.obj fs)
  | .str s => s
  | .num n => jsonStringify (.num n)

/-- Result of `fetch` on the download link. -/
structure FetchResponse where
  ok : Bool
  statusText : String
  blob : String
deriving DecidableEq

/-- A locally-owned blob URL materialized from fetched bytes
(`URL.createObjectURL`). -/
structure BlobURL where
  blob : String
deriving DecidableEq

/-- Observable protocol actions of a `generateVideo` run. -/
inductive PollEvent where
  | sleep (ms : Nat)
  | poll (handle : Operation)
  | fetchUrl (url : String)

/-- Message thrown when the terminal operation has no usable download link. -/
def missingLinkMsg : String := "Video generation completed, but no download link was found."

/-- The `while (!operation.done)` loop: starting from the current handle `op`
and the stream `rest` of poll responses still to come, sleep 10 seconds and
re-poll with the most recently returned handle until `done` is true.  Returns
the trace of sleeps and polls together with the terminal handle; `none` when
the responses run out with `done` still false. -/
def pollLoop : Operation → List Operation → Option (List PollEvent × Operation)
  | op, rest =>
    if op.done then some ([], op)
    else
      match rest with
      | [] => none
      | r :: rs => (pollLoop r rs).map fun p => (.sleep 10000 :: .poll op :: p.1, p.2)

/-- Lines 122-135: read the download link; when it is truthy, fetch it with the
API key appended and either materialize the blob or fail with the transport
status text; otherwise fail with the no-download-link message. -/
def finishLink (apiKey : String) (fetchF : String → FetchResponse)
    (tr : List PollEvent) (op : Operation) : List PollEvent × Except String BlobURL :=
  match opDownloadLink op with
  | some link =>
    if link.isEmpty then (tr, .error missingLinkMsg)
    else
      let url := link ++ "&key=" ++ apiKey
      let resp := fetchF url
      (tr ++ [.fetchUrl url],
        if resp.ok then .ok ⟨resp.blob⟩ else .error ("Failed to fetch video: " ++ resp.statusText))
  | none => (tr, .error missingLinkMsg)

/-- Lines 107-135: after the loop, a truthy `operation.error` fails with the
extracted message; otherwise the download-link logic runs. -/
def finishVideo (apiKey : String) (fetchF : String → FetchResponse)
    (tr : List PollEvent) (op : Operation) : List PollEvent × Except String BlobURL :=
  match op.error with
  | some e =>
    if e.truthy then (tr, .error (extractVideoErrorMessage e))
    else finishLink apiKey fetchF tr op
  | none => finishLink apiKey fetchF tr op

/-- A whole `generateVideo` run over the non-empty sequence of handle
responses (submit response first). -/
def generateVideoRun (apiKey : String) (fetchF : String → FetchResponse) :
    List Operation → Option (List PollEvent × Except String BlobURL)
  | [] => none
  | submit :: rest => (pollLoop submit rest).map fun p => finishVideo apiKey fetchF p.1 p.2

/-- The expected loop trace over the not-yet-done handles `pre`: a 10-second
sleep followed by a poll call carrying the most recently returned handle, for
each element of `pre` in order. -/
def pollEvents : List Operation → List PollEvent
  | [] => []
  | p :: ps => .sleep 10000 :: .poll p :: pollEvents ps

/-- The polling loop consumes exactly the `done:false` prefix: if every handle
in `pre` has `done` false and `term` has `done` true, the loop run over
`pre ++ [term]` performs one sleep-then-poll pair per element of `pre`, each
poll passed that (latest) handle, and ends at `term`. -/
lemma pollLoop_eq_of_prefix (pre : List Operation) (term : Operation)
    (hpre : ∀ p ∈ pre, p.done = false) (hterm : term.done = true) :
    ∀ s rs, s :: rs = pre ++ [term] → pollLoop s rs = some (pollEvents pre, term) := by
  induction pre with
  | nil =>
    intro s rs h
    simp only [List.nil_append] at h
    obtain ⟨h1, h2⟩ := List.cons.inj h
    subst h1; subst h2
    simp [pollLoop, hterm, pollEvents]
  | cons p ps ih =>
    intro s rs h
    rw [List.cons_append] at h
    obtain ⟨h1, h2⟩ := List.cons.inj h
    have hp : p.done = false := hpre p (List.mem_cons_self p ps)
    cases hps : ps ++ [term] with
    | nil => exact absurd hps (by simp)
    | cons r rs' =>
      have hrec := ih (fun q hq => hpre q (List.mem_cons_of_mem p hq)) r rs' hps.symm
      rw [h1, h2]
      simp [pollLoop, hp, hps, hrec, pollEvents]

/-- A non-empty list decomposes as a head and a tail; helper for running
`generateVideoRun` on `pre ++ [term]`. -/
lemma exists_cons_append (pre : List Operation) (term : Operation) :
    ∃ s rs, pre ++ [term] = s :: rs := by
  cases pre with
  | nil => exact ⟨term, [], rfl⟩
  | cons p ps => exact ⟨p, ps ++ [term], rfl⟩

/-- `pollEvents` contains no fetch event. -/
lemma fetchUrl_not_mem_pollEvents (l : List Operation) (u : String) :
    PollEvent.fetchUrl u ∉ pollEvents l := by
  induction l with
  | nil => simp [pollEvents]
  | cons p ps ih =>
    intro h
    simp only [pollEvents, List.mem_cons] at h
    rcases h with h | h | h
    · exact PollEvent.noConfusion h
    · exact PollEvent.noConfusion h
    · exact ih h

/-- C1: for every run whose handle-response sequence is a block `pre` of
`done:false` responses followed by a terminal `done:true` response carrying no
error and the video uri `X` (a non-empty uri, as the code's truthiness test on
the download link requires), and whose authenticated binary fetch succeeds,
the client's trace is exactly one 10-second sleep followed by one poll call per
element of `pre` — so exactly `k = pre.length` poll calls, each passed the most
recently returned handle (the previous response in the sequence) — followed by
a single binary fetch of `X` with the key appended, and the run returns the
blob URL materialized from the fetched bytes. -/
theorem generateVideo_poll_protocol (apiKey X blobData statusText : String)
    (fetchF : String → FetchResponse) (pre : List Operation) (term : Operation)
    (hpre : ∀ p ∈ pre, p.done = false)
    (hdone : term.done = true)
    (herr : term.error = none)
    (huri : opDownloadLink term = some X)
    (hX : X.isEmpty = false)
    (hfetch : fetchF (X ++ "&key=" ++ apiKey) = ⟨true, statusText, blobData⟩) :
    generateVideoRun apiKey fetchF (pre ++ [term]) =
      some (pollEvents pre ++ [PollEvent.fetchUrl (X ++ "&key=" ++ apiKey)],
        Except.ok ⟨blobData⟩) := by
  obtain ⟨s, rs, hsrs⟩ := exists_cons_append pre term
  have hloop := pollLoop_eq_of_prefix pre term hpre hdone s rs hsrs.symm
  rw [hsrs]
  simp [generateVideoRun, hloop, finishVideo, herr, finishLink, huri, hX, hfetch]

/-- Witness for C1: one `done:false` submit response, then the successful
terminal response with uri `"X"`; the run sleeps once, polls once with the
submit handle, fetches `X&key=K` and returns the fetched bytes as a blob
URL. -/
theorem generateVideo_poll_protocol_witness :
    generateVideoRun "K" (fun _ => ⟨true, "OK", "BYTES"⟩)
        ([⟨false, none, none⟩] ++ [⟨true, none, some ⟨some [⟨some ⟨some "X"⟩⟩]⟩⟩]) =
      some (pollEvents [⟨false, none, none⟩] ++ [PollEvent.fetchUrl ("X" ++ "&key=" ++ "K")],
        Except.ok ⟨"BYTES"⟩) :=
  generateVideo_poll_protocol "K" "X" "BYTES" "OK" _ _ _
    (fun p hp => by
      rw [List.mem_singleton] at hp
      rw [hp])
    rfl rfl rfl rfl rfl

/-- C5: for every run whose terminal response has `done:true`, no error field,
and no generated-video reference (the optional chain
`response?.generatedVideos?.[0]?.video?.uri` yields nothing), the client fails
with the no-download-link message and its trace contains no binary fetch. -/
theorem generateVideo_missing_result (apiKey : String)
    (fetchF : String → FetchResponse) (pre : List Operation) (term : Operation)
    (hpre : ∀ p ∈ pre, p.done = false)
    (hdone : term.done = true)
    (herr : term.error = none)
    (huri : opDownloadLink term = none) :
    generateVideoRun apiKey fetchF (pre ++ [term]) =
      some (pollEvents pre, Except.error missingLinkMsg) ∧
    ∀ u, PollEvent.fetchUrl u ∉ pollEvents pre := by
  obtain ⟨s, rs, hsrs⟩ := exists_cons_append pre term
  have hloop := pollLoop_eq_of_prefix pre term hpre hdone s rs hsrs.symm
  refine ⟨?_, fun u => fetchUrl_not_mem_pollEvents pre u⟩
  rw [hsrs]
  simp [generateVideoRun, hloop, finishVideo, herr, finishLink, huri]

/-- Witness for C5: an immediately-done terminal response with neither error
nor `generatedVideos` fails with the no-download-link message without any
fetch. -/
theorem generateVideo_missing_result_witness :
    generateVideoRun "K" (fun _ => ⟨true, "OK", "BYTES"⟩) ([] ++ [⟨true, none, none⟩]) =
        some (pollEvents [], Except.error missingLinkMsg) ∧
      ∀ u, PollEvent.fetchUrl u ∉ pollEvents ([] : List Operation) :=
  generateVideo_missing_result "K" _ [] _ (fun p hp => absurd hp (List.not_mem_nil p))
    rfl rfl rfl

/-- C6: for every run that reaches a successful terminal response with a
(non-empty) video uri `X` but whose authenticated binary fetch returns a
non-success transport status, the operation fails with the message
`"Failed to fetch video: "` followed by the transport status text. -/
theorem generateVideo_fetch_failure (apiKey X blobData statusText : String)
    (fetchF : String → FetchResponse) (pre : List Operation) (term : Operation)
    (hpre : ∀ p ∈ pre, p.done = false)
    (hdone : term.done = true)
    (herr : term.error = none)
    (huri : opDownloadLink term = some X)
    (hX : X.isEmpty = false)
    (hfetch : fetchF (X ++ "&key=" ++ apiKey) = ⟨false, statusText, blobData⟩) :
    generateVideoRun apiKey fetchF (pre ++ [term]) =
      some (pollEvents pre ++ [PollEvent.fetchUrl (X ++ "&key=" ++ apiKey)],
        Except.error ("Failed to fetch video: " ++ statusText)) := by
  obtain ⟨s, rs, hsrs⟩ := exists_cons_append pre term
  have hloop := pollLoop_eq_of_prefix pre term hpre hdone s rs hsrs.symm
  rw [hsrs]
  simp [generateVideoRun, hloop, finishVideo, herr, finishLink, huri, hX, hfetch]

/-- Witness for C6: a run whose fetch answers `404 Not Found` fails with
`"Failed to fetch video: Not Found"`. -/
theorem generateVideo_fetch_failure_witness :
    generateVideoRun "K" (fun _ => ⟨false, "Not Found", ""⟩)
        ([] ++ [⟨true, none, some ⟨some [⟨some ⟨some "X"⟩⟩]⟩⟩]) =
      some (pollEvents [] ++ [PollEvent.fetchUrl ("X" ++ "&key=" ++ "K")],
        Except.error ("Failed to fetch video: " ++ "Not Found")) :=
  generateVideo_fetch_failure "K" "X" "" "Not Found" _ [] _
    (fun p hp => absurd hp (List.not_mem_nil p)) rfl rfl rfl rfl rfl

/-- The object branch of `jsonStringify` unfolded. -/
lemma jsonStringify_obj_def (fs : List (String × JsVal)) :
    jsonStringify (JsVal.obj fs) = "\x7b" ++ (jsonFields fs ++ "\x7d") := by
  simp [jsonStringify]

/-- The JSON-stringified fallback for an object error always starts with a
brace, so it is never the string `"[object Object]"`. -/
lemma jsonStringify_obj_ne_objectObject (fs : List (String × JsVal)) :
    jsonStringify (JsVal.obj fs) ≠ "[object Object]" := by
  rw [jsonStringify_obj_def]
  intro h
  have h2 := congrArg String.data h
  rw [String.data_append] at h2
  have h3 : ("\x7b" : String).data = ['\x7b'] := rfl
  have h4 : ("[object Object]" : String).data = '[' :: ("object Object]" : String).data := rfl
  rw [h3, h4, List.singleton_append] at h2
  injection h2 with hh _
  exact absurd hh (by decide)

/-- C2 counterexample: JavaScript truthiness breaks the claim at two inputs.
With a terminal response whose error field is present but falsy (the empty
string) and whose uri is valid, `generateVideo` does not fail at all — it
proceeds to the fetch and succeeds.  And with error `{message: ""}`, whose
`message` field is a string, the surfaced message is the JSON-stringified
fallback `{"message":""}` rather than that string. -/
theorem generateVideo_error_claim_cex :
    generateVideoRun "K" (fun _ => ⟨true, "OK", "BYTES"⟩)
        [⟨true, some (.str ""), some ⟨some [⟨some ⟨some "X"⟩⟩]⟩⟩] =
      some ([PollEvent.fetchUrl ("X" ++ "&key=" ++ "K")], Except.ok ⟨"BYTES"⟩) ∧
    generateVideoRun "K" (fun _ => ⟨true, "OK", "BYTES"⟩)
        [⟨true, some (.obj [("message", .str "")]), none⟩] =
      some ([], Except.error "\x7b\x22message\x22:\x22\x22\x7d") ∧
    ("\x7b\x22message\x22:\x22\x22\x7d" : String) ≠ "" :=
  ⟨rfl, rfl, by decide⟩

/-- C2 (amended): for every terminal poll response with `done:true` and a
*truthy* error value `e`, `generateVideo` fails — performing no binary
fetch — with the message `extractVideoErrorMessage e`, i.e. the error's
`message` field when that is a truthy string, else the error itself when it is
a string, else the `JSON.stringify` fallback; and for object errors that
fallback is never the string `"[object Object]"`. -/
theorem generateVideo_error_extraction (apiKey : String)
    (fetchF : String → FetchResponse) (pre : List Operation) (term : Operation) (e : JsVal)
    (hpre : ∀ p ∈ pre, p.done = false)
    (hdone : term.done = true)
    (herr : term.error = some e)
    (htruthy : e.truthy = true) :
    generateVideoRun apiKey fetchF (pre ++ [term]) =
      some (pollEvents pre, Except.error (extractVideoErrorMessage e)) ∧
    (∀ fs, jsonStringify (JsVal.obj fs) ≠ "[object Object]") ∧
    ∀ u, PollEvent.fetchUrl u ∉ pollEvents pre := by
  obtain ⟨s, rs, hsrs⟩ := exists_cons_append pre term
  have hloop := pollLoop_eq_of_prefix pre term hpre hdone s rs hsrs.symm
  refine ⟨?_, jsonStringify_obj_ne_objectObject, fun u => fetchUrl_not_mem_pollEvents pre u⟩
  rw [hsrs]
  simp [generateVideoRun, hloop, finishVideo, herr, htruthy]

/-- Witness for C2's amended theorem: error `{message:"boom"}` surfaces
exactly `"boom"`. -/
theorem generateVideo_error_extraction_witness :
    generateVideoRun "K" (fun _ => ⟨true, "OK", "BYTES"⟩)
        ([] ++ [⟨true, some (.obj [("message", .str "boom")]), none⟩]) =
      some (pollEvents [], Except.error "boom") ∧
    (∀ fs, jsonStringify (JsVal.obj fs) ≠ "[object Object]") ∧
    (∀ u, PollEvent.fetchUrl u ∉ pollEvents ([] : List Operation)) :=
  generateVideo_error_extraction "K" (fun _ => ⟨true, "OK", "BYTES"⟩) []
    ⟨true, some (.obj [("message", .str "boom")]), none⟩ (.obj [("message", .str "boom")])
    (fun p hp => absurd hp (List.not_mem_nil p)) rfl rfl rfl

/-! ## `VideoTab` object-URL ownership (App.tsx lines 92-196)

`VideoTab` owns two object-URL handles: the upload `preview`
(`URL.createObjectURL(selectedFile)` in `handleFileChange`) and the generated
`videoUrl` (blob URL returned by the service).  Releases happen in three
places: the manual `URL.revokeObjectURL(preview)` in `handleFileChange` and
`handleClearImage`, and the cleanup of the effect with dependency array
`[videoUrl, preview]`, which revokes *both* previously committed values
(`videoUrl` when it starts with `blob:` — always true for object URLs — and
`preview` when truthy).  Per React semantics the cleanup runs, with the old
committed values, after any render in which either dependency changed, and
once more on unmount.

The model numbers handles by a counter, logs every revoke, and steps through
the user-visible events: selecting a valid/invalid file, clearing the image,
and the three renders of `handleGenerate` (the initial `setVideoUrl(null)`,
a successful `setVideoUrl(objectUrl)`, a failure that changes neither
dependency). -/

/-- User-visible events of a `VideoTab` lifecycle. -/
inductive VEvent where
  | selectValid
  | selectInvalid
  | clearImage
  | genStart
  | genOk
  | genFail
deriving DecidableEq

/-- `VideoTab` handle state: the fresh-handle counter, the two owned handles,
the creation log and the revocation log (a handle may occur several times in
`revoked`). -/
structure VState where
  nextHandle : Nat
  preview : Option Nat
  videoUrl : Option Nat
  created : List Nat
  revoked : List Nat

/-- Push a revoke of the handle, if present, onto the log.  Used both for the
handlers' conditional manual revokes and for the effect cleanup's two
conditional revokes. -/
def revokeIf (h? : Option Nat) (log : List Nat) : List Nat :=
  match h? with
  | some h => h :: log
  | none => log

/-- One event step of `VideoTab`.  Whenever a step changes `preview` or
`videoUrl`, the cleanup of the `[videoUrl, preview]` effect fires with the
previously committed values, revoking the old `videoUrl` (if any) and the old
`preview` (if any), in that order, after any manual revoke the handler itself
performed. -/
def vtStep (s : VState) : VEvent → VState
  | .selectValid =>
    let manual := revokeIf s.preview s.revoked
    let h := s.nextHandle
    { nextHandle := h + 1, preview := some h, videoUrl := none,
      created := h :: s.created,
      revoked := revokeIf s.preview (revokeIf s.videoUrl manual) }
  | .selectInvalid => s
  | .clearImage =>
    match s.preview with
    | none => s
    | some p =>
      { s with
        preview := none,
        revoked := revokeIf (some p) (revokeIf s.videoUrl (p :: s.revoked)) }
  | .genStart =>
    match s.videoUrl with
    | none => s
    | some v =>
      { s with
        videoUrl := none,
        revoked := revokeIf s.preview (v :: s.revoked) }
  | .genOk =>
    let h := s.nextHandle
    { nextHandle := h + 1, preview := s.preview, videoUrl := some h,
      created := h :: s.created,
      revoked := revokeIf s.preview (revokeIf s.videoUrl s.revoked) }
  | .genFail => s

/-- Unmount: the effect cleanup fires one final time with the current values. -/
def vtUnmount (s : VState) : VState :=
  { s with
    preview := none,
    videoUrl := none,
    revoked := revokeIf s.preview (revokeIf s.videoUrl s.revoked) }

/-- The initial `VideoTab` state. -/
def vtInit : VState := ⟨0, none, none, [], []⟩

/-- A whole `VideoTab` lifecycle: events in order, then teardown. -/
def runVideoTab (es : List VEvent) : VState :=
  vtUnmount (es.foldl vtStep vtInit)

/-- C7 counterexample: handles are not released exactly once.  Selecting a
valid file twice releases the first preview handle (handle 0) twice — once by
the manual revoke in `handleFileChange` and once by the effect cleanup — and
in the sequence select-file, generation-success, clear-image the video blob
handle (handle 1) is released twice: the clear-image render changes `preview`,
so the cleanup also revokes the still-current `videoUrl`, which is revoked
again at unmount. -/
theorem videoTab_release_claim_cex :
    (runVideoTab [.selectValid, .selectValid]).revoked.count 0 = 2 ∧
    (runVideoTab [.selectValid, .genOk, .clearImage]).revoked.count 1 = 2 := by
  decide

/-- Counting is monotone under consing a revoke onto the log. -/
lemma count_le_count_cons (a x : Nat) (l : List Nat) : l.count x ≤ (a :: l).count x := by
  rw [List.count_cons]
  exact Nat.le_add_right _ _

/-- Counting is monotone under `revokeIf`. -/
lemma count_le_count_revokeIf (h? : Option Nat) (l : List Nat) (x : Nat) :
    l.count x ≤ (revokeIf h? l).count x := by
  cases h? with
  | none => exact Nat.le_refl _
  | some h => exact count_le_count_cons h x l

/-- `revokeIf` on a present handle logs at least one revoke of it. -/
lemma one_le_count_revokeIf_self (h : Nat) (l : List Nat) :
    1 ≤ (revokeIf (some h) l).count h := by
  simp [revokeIf, List.count_cons]

/-- Invariant: every handle ever created is either still owned (current
preview or current video URL) or has been revoked at least once. -/
def vtInv (s : VState) : Prop :=
  ∀ h ∈ s.created, s.preview = some h ∨ s.videoUrl = some h ∨ 1 ≤ s.revoked.count h

/-- The invariant holds initially. -/
lemma vtInv_init : vtInv vtInit := by
  intro h hmem
  exact absurd hmem (List.not_mem_nil h)

/-- Every event step preserves the invariant: a step only stops owning a
handle after logging a revoke of it. -/
lemma vtInv_step (s : VState) (e : VEvent) (hs : vtInv s) : vtInv (vtStep s e) := by
  cases e with
  | selectValid =>
    intro h hmem
    simp only [vtStep] at hmem ⊢
    rw [List.mem_cons] at hmem
    rcases hmem with rfl | hmem
    · exact Or.inl rfl
    · rcases hs h hmem with hp | hv | hc
      · refine Or.inr (Or.inr ?_)
        rw [hp]
        exact one_le_count_revokeIf_self h _
      · refine Or.inr (Or.inr (le_trans ?_ (count_le_count_revokeIf s.preview _ h)))
        rw [hv]
        exact one_le_count_revokeIf_self h _
      · refine Or.inr (Or.inr (le_trans hc (le_trans (count_le_count_revokeIf s.preview _ h)
          (le_trans (count_le_count_revokeIf s.videoUrl _ h)
            (count_le_count_revokeIf s.preview _ h)))))
  | selectInvalid => exact hs
  | clearImage =>
    cases hp : s.preview with
    | none =>
      intro h hmem
      simp only [vtStep, hp] at hmem ⊢
      rcases hs h hmem with hph | hv | hc
      · rw [hp] at hph
        exact Option.noConfusion hph
      · exact Or.inr (Or.inl hv)
      · exact Or.inr (Or.inr hc)
    | some p =>
      intro h hmem
      simp only [vtStep, hp] at hmem ⊢
      rcases hs h hmem with hph | hv | hc
      · obtain rfl : p = h := Option.some.inj (hp.symm.trans hph)
        exact Or.inr (Or.inr (one_le_count_revokeIf_self _ _))
      · exact Or.inr (Or.inl hv)
      · exact Or.inr (Or.inr (le_trans hc (le_trans (count_le_count_cons p h s.revoked)
          (le_trans (count_le_count_revokeIf s.videoUrl _ h)
            (count_le_count_revokeIf (some p) _ h)))))
  | genStart =>
    cases hv : s.videoUrl with
    | none =>
      intro h hmem
      simp only [vtStep, hv] at hmem ⊢
      rcases hs h hmem with hph | hvh | hc
      · exact Or.inl hph
      · rw [hv] at hvh
        exact Option.noConfusion hvh
      · exact Or.inr (Or.inr hc)
    | some v =>
      intro h hmem
      simp only [vtStep, hv] at hmem ⊢
      rcases hs h hmem with hph | hvh | hc
      · exact Or.inl hph
      · obtain rfl : v = h := Option.some.inj (hv.symm.trans hvh)
        refine Or.inr (Or.inr (le_trans ?_ (count_le_count_revokeIf s.preview _ _)))
        simp [List.count_cons]
      · exact Or.inr (Or.inr (le_trans hc (le_trans (count_le_count_cons v h s.revoked)
          (count_le_count_revokeIf s.preview _ h))))
  | genOk =>
    intro h hmem
    simp only [vtStep] at hmem ⊢
    rw [List.mem_cons] at hmem
    rcases hmem with rfl | hmem
    · exact Or.inr (Or.inl rfl)
    · rcases hs h hmem with hp | hv | hc
      · exact Or.inl hp
      · refine Or.inr (Or.inr (le_trans ?_ (count_le_count_revokeIf s.preview _ h)))
        rw [hv]
        exact one_le_count_revokeIf_self h _
      · exact Or.inr (Or.inr (le_trans hc (le_trans (count_le_count_revokeIf s.videoUrl _ h)
          (count_le_count_revokeIf s.preview _ h))))
  | genFail => exact hs

/-- The invariant is preserved along any event list. -/
lemma vtInv_foldl (es : List VEvent) : ∀ s, vtInv s → vtInv (es.foldl vtStep s) := by
  induction es with
  | nil => exact fun s hs => hs
  | cons e es ih =>
    intro s hs
    exact ih (vtStep s e) (vtInv_step s e hs)

/-- C7 (amended): across every sequence of file selections, clear-image
actions, generation starts/completions/failures, and teardown, every handle
the view creates is released at least once by the time teardown completes —
no handle leaks.  (Release is not exactly-once — see the counterexample: the
shared cleanup effect re-releases the unchanged handle whenever the other
dependency changes, and the handlers' manual preview revokes duplicate the
cleanup's.) -/
theorem videoTab_handles_released (es : List VEvent) :
    ∀ h ∈ (runVideoTab es).created, 1 ≤ (runVideoTab es).revoked.count h := by
  have hinv := vtInv_foldl es vtInit vtInv_init
  intro h hmem
  simp only [runVideoTab, vtUnmount] at hmem ⊢
  rcases hinv h hmem with hp | hv | hc
  · rw [hp]
    exact one_le_count_revokeIf_self h _
  · refine le_trans ?_ (count_le_count_revokeIf _ _ h)
    rw [hv]
    exact one_le_count_revokeIf_self h _
  · exact le_trans hc (le_trans (count_le_count_revokeIf _ _ h)
      (count_le_count_revokeIf _ _ h))

/-- Witness for C7's amended theorem: the preview handle created by a single
file selection is revoked by teardown. -/
theorem videoTab_handles_released_witness :
    1 ≤ (runVideoTab [.selectValid]).revoked.count 0 :=
  videoTab_handles_released [.selectValid] 0 (by decide)

/-! ## File-type validation in `handleFileChange` (App.tsx lines 126-139 and
304-316)

Both tabs run the same guard on the selected file's declared MIME type before
doing anything else: a type outside
`['image/jpeg', 'image/png', 'image/webp']` only sets the error message and
returns, before any encoding or network work.  The handlers are modelled as
pure functions from the panel state and the selected file to the new panel
state plus the list of side-effecting actions performed
(`URL.createObjectURL` / `URL.revokeObjectURL`); a rejected selection performs
no action at all.  `newUrl` stands for the object URL
`URL.createObjectURL(selectedFile)` the browser would mint. -/

/-- A selected file, reduced to its declared MIME type. -/
structure JsFile where
  type : String
deriving DecidableEq

/-- The accepted image MIME types. -/
def validImageType (t : String) : Bool :=
  ["image/jpeg", "image/png", "image/webp"].contains t

/-- The validation message both handlers set on rejection. -/
def fileValidationMsg : String := "Please select a valid image file (JPEG, PNG, WebP)."

/-- Side-effecting actions a file-change handler can perform. -/
inductive PanelAction where
  | createUrl (u : String)
  | revokeUrl (u : String)
deriving DecidableEq

/-- `VideoTab` panel state (the fields `handleFileChange` touches or must
preserve). -/
structure VideoPanel where
  prompt : String
  file : Option JsFile
  preview : Option String
  videoUrl : Option String
  error : Option String
deriving DecidableEq

/-- `VideoTab.handleFileChange`: no-op when no file was picked; on an invalid
type, set the error and return; on a valid type, clear the error, store the
file, revoke the old preview, create and store the new preview, and clear the
rendered video. -/
def videoHandleFileChange (s : VideoPanel) (selected : Option JsFile) (newUrl : String) :
    VideoPanel × List PanelAction :=
  match selected with
  | none => (s, [])
  | some f =>
    if validImageType f.type then
      ({ s with
          error := none, file := some f, preview := some newUrl, videoUrl := none },
        (match s.preview with
          | some p => [PanelAction.revokeUrl p]
          | none => []) ++ [PanelAction.createUrl newUrl])
    else
      ({ s with error := some fileValidationMsg }, [])

/-- `EditTab` panel state. -/
structure EditPanel where
  file : Option JsFile
  preview : Option String
  prompt : String
  resultParts : Option (List EditResultPart)
  error : Option String
deriving DecidableEq

/-- `EditTab.handleFileChange`: same guard; on acceptance it stores the file,
creates and stores the new preview (without revoking the old one), and clears
the previous edit result. -/
def editHandleFileChange (s : EditPanel) (selected : Option JsFile) (newUrl : String) :
    EditPanel × List PanelAction :=
  match selected with
  | none => (s, [])
  | some f =>
    if validImageType f.type then
      ({ s with
          error := none, file := some f, preview := some newUrl, resultParts := none },
        [PanelAction.createUrl newUrl])
    else
      ({ s with error := some fileValidationMsg }, [])

/-- C8: in both tabs, a selected file whose declared type is not one of
`image/png`, `image/jpeg`, `image/webp` is rejected — the handler sets the
validation message and performs no action at all (no object-URL creation, no
encoding, no network work) — while a file of each of the three accepted types
is accepted and stored. -/
theorem fileChange_type_validation (sv : VideoPanel) (se : EditPanel)
    (f : JsFile) (u : String) (hbad : validImageType f.type = false) :
    (videoHandleFileChange sv (some f) u).1.error = some fileValidationMsg ∧
    (videoHandleFileChange sv (some f) u).2 = [] ∧
    (editHandleFileChange se (some f) u).1.error = some fileValidationMsg ∧
    (editHandleFileChange se (some f) u).2 = [] ∧
    (videoHandleFileChange sv (some ⟨"image/png"⟩) u).1.file = some ⟨"image/png"⟩ ∧
    (videoHandleFileChange sv (some ⟨"image/jpeg"⟩) u).1.file = some ⟨"image/jpeg"⟩ ∧
    (videoHandleFileChange sv (some ⟨"image/webp"⟩) u).1.file = some ⟨"image/webp"⟩ ∧
    (editHandleFileChange se (some ⟨"image/png"⟩) u).1.file = some ⟨"image/png"⟩ ∧
    (editHandleFileChange se (some ⟨"image/jpeg"⟩) u).1.file = some ⟨"image/jpeg"⟩ ∧
    (editHandleFileChange se (some ⟨"image/webp"⟩) u).1.file = some ⟨"image/webp"⟩ := by
  refine ⟨?_, ?_, ?_, ?_, rfl, rfl, rfl, rfl, rfl, rfl⟩ <;>
    simp [videoHandleFileChange, editHandleFileChange, hbad]

/-- Witness for C8 at `text/plain` on fresh panels. -/
theorem fileChange_type_validation_witness :
    (videoHandleFileChange ⟨"", none, none, none, none⟩ (some ⟨"text/plain"⟩) "blob:p").1.error =
        some fileValidationMsg ∧
      (videoHandleFileChange ⟨"", none, none, none, none⟩ (some ⟨"text/plain"⟩) "blob:p").2 = [] ∧
      (editHandleFileChange ⟨none, none, "", none, none⟩ (some ⟨"text/plain"⟩) "blob:p").1.error =
        some fileValidationMsg ∧
      (editHandleFileChange ⟨none, none, "", none, none⟩ (some ⟨"text/plain"⟩) "blob:p").2 = [] ∧
      (videoHandleFileChange ⟨"", none, none, none, none⟩ (some ⟨"image/png"⟩) "blob:p").1.file =
        some ⟨"image/png"⟩ ∧
      (videoHandleFileChange ⟨"", none, none, none, none⟩ (some ⟨"image/jpeg"⟩) "blob:p").1.file =
        some ⟨"image/jpeg"⟩ ∧
      (videoHandleFileChange ⟨"", none, none, none, none⟩ (some ⟨"image/webp"⟩) "blob:p").1.file =
        some ⟨"image/webp"⟩ ∧
      (editHandleFileChange ⟨none, none, "", none, none⟩ (some ⟨"image/png"⟩) "blob:p").1.file =
        some ⟨"image/png"⟩ ∧
      (editHandleFileChange ⟨none, none, "", none, none⟩ (some ⟨"image/jpeg"⟩) "blob:p").1.file =
        some ⟨"image/jpeg"⟩ ∧
      (editHandleFileChange ⟨none, none, "", none, none⟩ (some ⟨"image/webp"⟩) "blob:p").1.file =
        some ⟨"image/webp"⟩ :=
  fileChange_type_validation ⟨"", none, none, none, none⟩ ⟨none, none, "", none, none⟩
    ⟨"text/plain"⟩ "blob:p" (by decide)

/-- C10: rejection is atomic with respect to panel state — when the selected
file's type is invalid, everything except the error message is exactly as it
was: in `VideoTab` the stored file, preview handle, rendered video URL, and
prompt; in `EditTab` the stored file, preview, edit-result parts, and prompt;
and neither handler performs any action (so no preview handle is created or
revoked, and no encoding or network call is issued). -/
theorem fileChange_reject_frame (sv : VideoPanel) (se : EditPanel)
    (f : JsFile) (u : String) (hbad : validImageType f.type = false) :
    (videoHandleFileChange sv (some f) u).1.file = sv.file ∧
    (videoHandleFileChange sv (some f) u).1.preview = sv.preview ∧
    (videoHandleFileChange sv (some f) u).1.videoUrl = sv.videoUrl ∧
    (videoHandleFileChange sv (some f) u).1.prompt = sv.prompt ∧
    (videoHandleFileChange sv (some f) u).2 = [] ∧
    (editHandleFileChange se (some f) u).1.file = se.file ∧
    (editHandleFileChange se (some f) u).1.preview = se.preview ∧
    (editHandleFileChange se (some f) u).1.resultParts = se.resultParts ∧
    (editHandleFileChange se (some f) u).1.prompt = se.prompt ∧
    (editHandleFileChange se (some f) u).2 = [] := by
  refine ⟨?_, ?_, ?_, ?_, ?_, ?_, ?_, ?_, ?_, ?_⟩ <;>
    simp [videoHandleFileChange, editHandleFileChange, hbad]

/-- Witness for C10: a `text/plain` selection on populated panels leaves every
field except the error unchanged and performs no action. -/
theorem fileChange_reject_frame_witness :
    (videoHandleFileChange ⟨"cat", some ⟨"image/png"⟩, some "blob:a", some "blob:b", none⟩
        (some ⟨"text/plain"⟩) "blob:new").1.file = some ⟨"image/png"⟩ ∧
      (videoHandleFileChange ⟨"cat", some ⟨"image/png"⟩, some "blob:a", some "blob:b", none⟩
        (some ⟨"text/plain"⟩) "blob:new").1.preview = some "blob:a" ∧
      (videoHandleFileChange ⟨"cat", some ⟨"image/png"⟩, some "blob:a", some "blob:b", none⟩
        (some ⟨"text/plain"⟩) "blob:new").1.videoUrl = some "blob:b" ∧
      (videoHandleFileChange ⟨"cat", some ⟨"image/png"⟩, some "blob:a", some "blob:b", none⟩
        (some ⟨"text/plain"⟩) "blob:new").1.prompt = "cat" ∧
      (videoHandleFileChange ⟨"cat", some ⟨"image/png"⟩, some "blob:a", some "blob:b", none⟩
        (some ⟨"text/plain"⟩) "blob:new").2 = [] ∧
      (editHandleFileChange ⟨some ⟨"image/png"⟩, some "blob:a", "cat", some [], none⟩
        (some ⟨"text/plain"⟩) "blob:new").1.file = some ⟨"image/png"⟩ ∧
      (editHandleFileChange ⟨some ⟨"image/png"⟩, some "blob:a", "cat", some [], none⟩
        (some ⟨"text/plain"⟩) "blob:new").1.preview = some "blob:a" ∧
      (editHandleFileChange ⟨some ⟨"image/png"⟩, some "blob:a", "cat", some [], none⟩
        (some ⟨"text/plain"⟩) "blob:new").1.resultParts = some [] ∧
      (editHandleFileChange ⟨some ⟨"image/png"⟩, some "blob:a", "cat", some [], none⟩
        (some ⟨"text/plain"⟩) "blob:new").1.prompt = "cat" ∧
      (editHandleFileChange ⟨some ⟨"image/png"⟩, some "blob:a", "cat", some [], none⟩
        (some ⟨"text/plain"⟩) "blob:new").2 = [] :=
  fileChange_reject_frame ⟨"cat", some ⟨"image/png"⟩, some "blob:a", some "blob:b", none⟩
    ⟨some ⟨"image/png"⟩, some "blob:a", "cat", some [], none⟩ ⟨"text/plain"⟩ "blob:new"
    (by decide)

/-! ## Download filename slug (`GenerateTab.handleDownload`,
`VideoTab.handleDownload`)

Both download handlers derive the base filename as
`prompt.trim().toLowerCase().replace(/\s+/g, '-').slice(0, 50) || dflt`
with `dflt` the tab's placeholder (`'generated-image'` / `'generated-video'`).
Strings are modelled as their character lists; the whitespace class is the
ASCII part of the JS `\s` class, and lowercasing is the basic-latin
`Char.toLower`, matching `toLowerCase` on the ASCII range. -/

/-- The whitespace class of the JS regex `\s` and of `String.prototype.trim`,
restricted to the ASCII range the model covers: space, tab, line feed,
vertical tab, form feed, carriage return. -/
def isJsSpace (c : Char) : Bool :=
  decide (c.toNat = 32 ∨ c.toNat = 9 ∨ c.toNat = 10 ∨
    c.toNat = 13 ∨ c.toNat = 11 ∨ c.toNat = 12)

/-- `String.prototype.trim`: drop the whitespace from both ends. -/
def jsTrim (l : List Char) : List Char :=
  (l.dropWhile isJsSpace).rdropWhile isJsSpace

/-- `String.prototype.toLowerCase`, on the basic-latin letters the model
covers. -/
def jsToLower (l : List Char) : List Char := l.map Char.toLower

/-- `replace(/\s+/g, '-')`: collapse each maximal whitespace run into a
single hyphen.  The flag records whether the previous character was
whitespace (so the hyphen for the current run has already been emitted). -/
def collapseWsAux : Bool → List Char → List Char
  | _, [] => []
  | prevWs, c :: cs =>
    if isJsSpace c then
      if prevWs then collapseWsAux true cs else '-' :: collapseWsAux true cs
    else c :: collapseWsAux false cs

/-- The download base filename:
`prompt.trim().toLowerCase().replace(/\s+/g, '-').slice(0, 50) || dflt`. -/
def promptFileName (dflt : String) (prompt : String) : String :=
  let s := (collapseWsAux false (jsToLower (jsTrim prompt.data))).take 50
  if s.isEmpty then dflt else String.mk s


/-- Split into the maximal whitespace-separated words, skipping whitespace. -/
def wsWords (l : List Char) : List (List Char) :=
  match l with
  | [] => []
  | c :: cs =>
    if isJsSpace c then wsWords cs
    else
      ((c :: cs).takeWhile (fun d => !isJsSpace d)) ::
        wsWords ((c :: cs).dropWhile (fun d => !isJsSpace d))
termination_by l.length
decreasing_by
  · simp
  · simp only [List.length_cons]
    have h1 : (c :: cs).dropWhile (fun d => !isJsSpace d) = cs.dropWhile (fun d => !isJsSpace d) := by
      rw [List.dropWhile_cons_of_pos]
      simpa using ‹¬ isJsSpace c = true›
    calc ((c :: cs).dropWhile (fun d => !isJsSpace d)).length
        = (cs.dropWhile (fun d => !isJsSpace d)).length := by rw [h1]
      _ ≤ cs.length := (List.dropWhile_suffix _).sublist.length_le
      _ < cs.length + 1 := Nat.lt_succ_self _

/-- Join words with single hyphens. -/
def hyphenJoin : List (List Char) → List Char
  | [] => []
  | [w] => w
  | w :: l => w ++ '-' :: hyphenJoin l

/-- The filename rule as the specification words it: trim, lowercase, collapse
each maximal whitespace run to a single hyphen (= the whitespace-separated
words joined by single hyphens), truncate to 50 characters; an empty or
whitespace-only prompt yields the placeholder default. -/
def promptFileNameSpec (dflt : String) (prompt : String) : String :=
  let t := jsTrim prompt.data
  if t.isEmpty then dflt
  else String.mk ((hyphenJoin (wsWords (jsToLower t))).take 50)

/-- No leading whitespace. -/
def noLeadWs (l : List Char) : Prop := ∀ c, l.head? = some c → isJsSpace c = false

/-- No trailing whitespace. -/
def noTrailWs (l : List Char) : Prop := ∀ c, l.getLast? = some c → isJsSpace c = false

/-- Lowercasing maps the basic-latin letters into letters, and fixes every
other character, so it preserves the whitespace class. -/
lemma isJsSpace_toLower (c : Char) : isJsSpace (Char.toLower c) = isJsSpace c := by
  unfold Char.toLower
  dsimp only
  split
  · next h =>
    have hv : (Char.toNat c + 32).isValidChar := by
      refine Or.inl ?_
      omega
    have ht : (Char.ofNat (Char.toNat c + 32)).toNat = Char.toNat c + 32 := by
      unfold Char.ofNat
      rw [dif_pos hv]
      rfl
    simp only [isJsSpace, ht, decide_eq_decide]
    omega
  · rfl

/-- Collapsing passes a whitespace-free block through unchanged. -/
lemma collapseWsAux_append_word (w r : List Char) (hw : ∀ a ∈ w, isJsSpace a = false) :
    collapseWsAux false (w ++ r) = w ++ collapseWsAux false r := by
  induction w with
  | nil => rfl
  | cons a w ih =>
    have ha : isJsSpace a = false := hw a (List.mem_cons_self a w)
    simp only [List.cons_append, collapseWsAux, ha]
    simp only [Bool.false_eq_true, if_false, List.cons.injEq, true_and]
    exact ih fun b hb => hw b (List.mem_cons_of_mem a hb)

/-- Once inside a whitespace run, further whitespace is skipped. -/
lemma collapseWsAux_true_ws_run (run rest : List Char) (hrun : ∀ a ∈ run, isJsSpace a = true) :
    collapseWsAux true (run ++ rest) = collapseWsAux true rest := by
  induction run with
  | nil => rfl
  | cons a run ih =>
    have ha : isJsSpace a = true := hrun a (List.mem_cons_self a run)
    simp only [List.cons_append, collapseWsAux, ha, if_true]
    exact ih fun b hb => hrun b (List.mem_cons_of_mem a hb)

/-- After a whitespace run the flag is irrelevant when the next character is
not whitespace. -/
lemma collapseWsAux_true_eq_false (l : List Char) (hl : noLeadWs l) :
    collapseWsAux true l = collapseWsAux false l := by
  cases l with
  | nil => rfl
  | cons c cs =>
    have hc : isJsSpace c = false := hl c rfl
    simp [collapseWsAux, hc]

/-- `wsWords` ignores leading whitespace. -/
lemma wsWords_dropWhile (l : List Char) :
    wsWords (l.dropWhile isJsSpace) = wsWords l := by
  induction l with
  | nil => rfl
  | cons c cs ih =>
    by_cases hc : isJsSpace c = true
    · rw [List.dropWhile_cons_of_pos hc, ih]
      conv_rhs => rw [wsWords]
      simp [hc]
    · rw [List.dropWhile_cons_of_neg hc]

/-- `hyphenJoin` on two or more words: first word, hyphen, rest. -/
lemma hyphenJoin_cons_cons (w y : List Char) (ys : List (List Char)) :
    hyphenJoin (w :: y :: ys) = w ++ '-' :: hyphenJoin (y :: ys) := rfl

/-- Core refinement: on a list with no leading and no trailing whitespace,
collapsing each maximal whitespace run to a single hyphen is joining the
whitespace-separated words with single hyphens. -/
lemma collapseWsAux_eq_hyphenJoin :
    ∀ n (l : List Char), l.length ≤ n → noLeadWs l → noTrailWs l →
      collapseWsAux false l = hyphenJoin (wsWords l) := by
  intro n
  induction n with
  | zero =>
    intro l hl _ _
    obtain rfl : l = [] := List.eq_nil_of_length_eq_zero (Nat.le_zero.mp hl)
    simp [collapseWsAux, wsWords, hyphenJoin]
  | succ n ih =>
    intro l hl hlead htrail
    cases l with
    | nil => simp [collapseWsAux, wsWords, hyphenJoin]
    | cons c cs =>
      have hc : isJsSpace c = false := hlead c rfl
      have hsplit : (c :: cs).takeWhile (fun d => !isJsSpace d) ++
          (c :: cs).dropWhile (fun d => !isJsSpace d) = c :: cs :=
        List.takeWhile_append_dropWhile _ _
      have hwall : ∀ a ∈ (c :: cs).takeWhile (fun d => !isJsSpace d), isJsSpace a = false := by
        intro a ha
        have hall := List.all_takeWhile (l := c :: cs) (p := fun d => !isJsSpace d)
        rw [List.all_eq_true] at hall
        simpa using hall a ha
      have hww : wsWords (c :: cs) = (c :: cs).takeWhile (fun d => !isJsSpace d) ::
          wsWords ((c :: cs).dropWhile (fun d => !isJsSpace d)) := by
        rw [wsWords]
        simp [hc]
      conv_lhs => rw [← hsplit]
      rw [collapseWsAux_append_word _ _ hwall, hww]
      cases hrc : (c :: cs).dropWhile (fun d => !isJsSpace d) with
      | nil =>
        simp [collapseWsAux, wsWords, hyphenJoin]
      | cons d ds =>
        have hd : isJsSpace d = true := by
          have hh := List.head?_dropWhile_not (fun d => !isJsSpace d) (c :: cs)
          rw [hrc] at hh
          simpa using hh
        -- the remainder after the separating whitespace run
        have hr'eq : (d :: ds).dropWhile isJsSpace = ds.dropWhile isJsSpace :=
          List.dropWhile_cons_of_pos hd
        -- the remainder is a suffix of the whole list
        have hsuf : ds.dropWhile isJsSpace <:+ c :: cs := by
          refine (List.dropWhile_suffix isJsSpace).trans ?_
          have h1 : ds <:+ d :: ds := ⟨[d], rfl⟩
          refine h1.trans ?_
          rw [← hrc]
          exact List.dropWhile_suffix _
        -- it is non-empty, else the whole list would end in whitespace
        have hr'ne : ds.dropWhile isJsSpace ≠ [] := by
          intro hnil
          have hall : ∀ x ∈ d :: ds, isJsSpace x = true := by
            rw [← List.dropWhile_eq_nil_iff (p := isJsSpace)]
            rw [hr'eq]
            exact hnil
          have hx : (d :: ds).getLast? = some ((d :: ds).getLast (by simp)) :=
            List.getLast?_eq_getLast _ _
          have hlx : (c :: cs).getLast? = some ((d :: ds).getLast (by simp)) := by
            conv_lhs => rw [← hsplit, hrc]
            rw [List.getLast?_append, hx]
            rfl
          have := htrail _ hlx
          rw [hall _ (List.getLast_mem _)] at this
          exact Bool.noConfusion this
        -- no leading whitespace on the remainder
        have hr'lead : noLeadWs (ds.dropWhile isJsSpace) := by
          intro x hx
          have hh := List.head?_dropWhile_not isJsSpace ds
          rw [hx] at hh
          simpa using hh
        -- no trailing whitespace on the remainder
        have hr'trail : noTrailWs (ds.dropWhile isJsSpace) := by
          intro x hx
          obtain ⟨t, ht⟩ := hsuf
          apply htrail x
          rw [← ht, List.getLast?_append, hx]
          rfl
        -- length bound for the induction hypothesis
        have hlen : (ds.dropWhile isJsSpace).length ≤ n := by
          have h1 : (ds.dropWhile isJsSpace).length ≤ ds.length :=
            (List.dropWhile_suffix _).sublist.length_le
          have h2 : (d :: ds).length ≤ cs.length := by
            rw [← hrc]
            have h3 : (c :: cs).dropWhile (fun d => !isJsSpace d) =
                cs.dropWhile (fun d => !isJsSpace d) := by
              refine List.dropWhile_cons_of_pos ?_
              simp [hc]
            rw [h3]
            exact (List.dropWhile_suffix _).sublist.length_le
          simp only [List.length_cons] at h2 hl
          omega
        have hrec := ih (ds.dropWhile isJsSpace) hlen hr'lead hr'trail
        -- words of the remainder: skipping its leading whitespace changes nothing
        have hwr : wsWords (d :: ds) = wsWords (ds.dropWhile isJsSpace) := by
          conv_rhs => rw [← hr'eq]
          rw [wsWords_dropWhile]
        -- the words of the remainder form at least one word
        obtain ⟨e, es, hes⟩ : ∃ e es, ds.dropWhile isJsSpace = e :: es := by
          cases hcase : ds.dropWhile isJsSpace with
          | nil => exact absurd hcase hr'ne
          | cons e es => exact ⟨e, es, rfl⟩
        have he : isJsSpace e = false := hr'lead e (by rw [hes]; rfl)
        have hwcons : wsWords (ds.dropWhile isJsSpace) =
            ((e :: es).takeWhile (fun x => !isJsSpace x)) ::
              wsWords ((e :: es).dropWhile (fun x => !isJsSpace x)) := by
          rw [hes, wsWords]
          simp [he]
        -- collapse the separating whitespace run into one hyphen
        have hcoll : collapseWsAux false (d :: ds) =
            '-' :: collapseWsAux false (ds.dropWhile isJsSpace) := by
          have hds : ds.takeWhile isJsSpace ++ ds.dropWhile isJsSpace = ds :=
            List.takeWhile_append_dropWhile _ _
          have hdsall : ∀ a ∈ ds.takeWhile isJsSpace, isJsSpace a = true := by
            intro a ha
            have hall := List.all_takeWhile (l := ds) (p := isJsSpace)
            rw [List.all_eq_true] at hall
            exact hall a ha
          calc collapseWsAux false (d :: ds)
              = '-' :: collapseWsAux true ds := by simp [collapseWsAux, hd]
            _ = '-' :: collapseWsAux true (ds.takeWhile isJsSpace ++ ds.dropWhile isJsSpace) := by
                rw [hds]
            _ = '-' :: collapseWsAux true (ds.dropWhile isJsSpace) := by
                rw [collapseWsAux_true_ws_run _ _ hdsall]
            _ = '-' :: collapseWsAux false (ds.dropWhile isJsSpace) := by
                rw [collapseWsAux_true_eq_false _ hr'lead]
        rw [hcoll, hrec, hwr, hwcons, hyphenJoin_cons_cons]

/-- Trimming leaves no leading whitespace. -/
lemma noLeadWs_jsTrim (l : List Char) : noLeadWs (jsTrim l) := by
  intro c hc
  rw [jsTrim] at hc
  obtain ⟨t, ht⟩ := List.rdropWhile_prefix isJsSpace (l.dropWhile isJsSpace)
  have hh := List.head?_dropWhile_not isJsSpace l
  have hhead : (l.dropWhile isJsSpace).head? = some c := by
    rw [← ht]
    cases hcase : (l.dropWhile isJsSpace).rdropWhile isJsSpace with
    | nil =>
      rw [hcase] at hc
      exact Option.noConfusion hc
    | cons a as =>
      rw [hcase] at hc
      simp only [List.cons_append, List.head?_cons]
      simpa using hc
  rw [hhead] at hh
  simpa using hh

/-- Trimming leaves no trailing whitespace. -/
lemma noTrailWs_jsTrim (l : List Char) : noTrailWs (jsTrim l) := by
  intro c hc
  rw [jsTrim] at hc
  have hne : (l.dropWhile isJsSpace).rdropWhile isJsSpace ≠ [] := by
    intro hnil
    rw [hnil] at hc
    exact Option.noConfusion hc
  have hlast := List.rdropWhile_last_not isJsSpace (l.dropWhile isJsSpace) hne
  have hc' : ((l.dropWhile isJsSpace).rdropWhile isJsSpace).getLast hne = c := by
    have hsome := List.getLast?_eq_getLast ((l.dropWhile isJsSpace).rdropWhile isJsSpace) hne
    rw [hsome] at hc
    exact Option.some.inj hc
  rw [hc'] at hlast
  simpa using hlast

/-- Lowercasing preserves absence of leading whitespace. -/
lemma noLeadWs_jsToLower (l : List Char) (h : noLeadWs l) : noLeadWs (jsToLower l) := by
  intro c hc
  rw [jsToLower, List.head?_map] at hc
  cases hh : l.head? with
  | none => rw [hh] at hc; exact Option.noConfusion hc
  | some a =>
    rw [hh] at hc
    obtain rfl : Char.toLower a = c := Option.some.inj hc
    rw [isJsSpace_toLower]
    exact h a hh

/-- Lowercasing preserves absence of trailing whitespace. -/
lemma noTrailWs_jsToLower (l : List Char) (h : noTrailWs l) : noTrailWs (jsToLower l) := by
  intro c hc
  rw [jsToLower, List.getLast?_map] at hc
  cases hh : l.getLast? with
  | none => rw [hh] at hc; exact Option.noConfusion hc
  | some a =>
    rw [hh] at hc
    obtain rfl : Char.toLower a = c := Option.some.inj hc
    rw [isJsSpace_toLower]
    exact h a hh

/-- C9: the download base filename equals its specification reading — trim,
lowercase, collapse each maximal whitespace run to a single hyphen (i.e. join
the whitespace-separated words with single hyphens), truncate to 50
characters, and fall back to the placeholder default on an empty or
whitespace-only prompt — and on the concrete examples the rule yields
`"a-bold-cat!!"` for `"  A Bold CAT!! "` and the placeholder defaults for the
empty and all-whitespace prompts. -/
theorem download_filename_slug :
    (∀ dflt prompt, promptFileName dflt prompt = promptFileNameSpec dflt prompt) ∧
    promptFileName "generated-video" "  A Bold CAT!! " = "a-bold-cat!!" ∧
    promptFileName "generated-image" "  A Bold CAT!! " = "a-bold-cat!!" ∧
    promptFileName "generated-image" "" = "generated-image" ∧
    promptFileName "generated-video" "   " = "generated-video" := by
  refine ⟨?_, by decide, by decide, by decide, by decide⟩
  intro dflt prompt
  rw [promptFileName, promptFileNameSpec]
  cases ht : jsTrim prompt.data with
  | nil => simp [jsToLower, collapseWsAux]
  | cons c cs =>
    have hlead : noLeadWs (jsToLower (c :: cs)) :=
      noLeadWs_jsToLower _ (ht ▸ noLeadWs_jsTrim prompt.data)
    have htrail : noTrailWs (jsToLower (c :: cs)) :=
      noTrailWs_jsToLower _ (ht ▸ noTrailWs_jsTrim prompt.data)
    have heq := collapseWsAux_eq_hyphenJoin (jsToLower (c :: cs)).length
      (jsToLower (c :: cs)) (Nat.le_refl _) hlead htrail
    have hc : isJsSpace (Char.toLower c) = false := hlead (Char.toLower c) rfl
    have hnonempty : collapseWsAux false (jsToLower (c :: cs)) =
        Char.toLower c :: collapseWsAux false (jsToLower cs) := by
      simp [jsToLower, collapseWsAux, hc]
    simp only [heq, List.isEmpty_iff]
    have h50 : (hyphenJoin (wsWords (jsToLower (c :: cs)))).take 50 ≠ [] := by
      rw [← heq, hnonempty]
      simp
    simp [h50, List.isEmpty_iff]
